import Mathlib

/-!
Verification of the OpenHDM coordination core against its specification.

This file gives a shallow embedding of the C++ sources (src/src/threading.h,
threading.cpp, domain.h, grid.h, project.h, uref.h, unit.h) and proves or
refutes the specification claims about them.  C++ `unsigned int` values are
modelled as `Nat` taken modulo `2^32` exactly where the source arithmetic can
wrap; fallible or blocking operations return `Option`.
-/

namespace OpenHDM

/-- Cardinality of C++ `unsigned int` (32-bit). -/
def U32 : Nat := 2 ^ 32

/-! ## Threading.ControlPoint (threading.h 40-56, threading.cpp 23-47) -/

/-- ControlPoint state (threading.h 50-53):
`unsigned int ncp = 0; unsigned int val = -1; bool done = true;`.
The initializer `val = -1` stores `2^32 - 1` in the unsigned field. -/
structure ControlPoint where
  ncp : Nat
  val : Nat
  done : Bool
deriving DecidableEq

/-- Default-constructed ControlPoint (threading.cpp 23-26 plus the in-class
initializers): `ncp = 0`, `val = (unsigned)(-1) = 2^32 - 1`, `done = true`. -/
def ControlPoint.start : ControlPoint := ⟨0, U32 - 1, true⟩

/-- Effect of `Domain::insertPhase` on the control point (domain.h 346):
`(cp.ncp)++`, an unsigned increment. -/
def ControlPoint.bumpNcp (cp : ControlPoint) : ControlPoint :=
  { cp with ncp := (cp.ncp + 1) % U32 }

/-- ControlPoint after construction followed by `k` phase registrations
(`insertPhase` called `k` times); only `ncp` is touched. -/
def registerPhases : Nat → ControlPoint
  | 0 => ControlPoint.start
  | k + 1 => (registerPhases k).bumpNcp

/-- `ControlPoint::increment` (threading.cpp 28-32): `val = (val+1)%ncp;
done = false;`.  The sum `val+1` is unsigned, hence wraps modulo `2^32`
before the `%ncp`.  When `ncp = 0` the `%` is a division by zero, which is
undefined behaviour in C++; the embedding returns `none` there. -/
def ControlPoint.increment (cp : ControlPoint) : Option ControlPoint :=
  if cp.ncp = 0 then none
  else some { cp with val := ((cp.val + 1) % U32) % cp.ncp, done := false }

/-- `ControlPoint::markDone` (threading.cpp 34-37): `done = true`. -/
def ControlPoint.markDone (cp : ControlPoint) : ControlPoint :=
  { cp with done := true }

/-- `ControlPoint::getVal` (threading.cpp 39-42). -/
def ControlPoint.getVal (cp : ControlPoint) : Nat := cp.val

/-- `ControlPoint::isDone` (threading.cpp 44-47). -/
def ControlPoint.isDone (cp : ControlPoint) : Bool := cp.done

/-! ## Lock guards

Each ControlPoint operation constructs a `std::unique_lock` or
`std::shared_lock` over `mtx` with `std::defer_lock` and never calls
`.lock()` afterwards (threading.cpp 29, 35, 40, 45).  A guard constructed
with `std::defer_lock` does not own the mutex (`owns_lock() == false`). -/

/-- A lock guard; `owns` is the C++ `owns_lock()` state while the guarded
statements run. -/
structure LockGuard where
  owns : Bool
deriving DecidableEq

/-- Guard built with `std::defer_lock`: the mutex is not acquired. -/
def deferLockGuard : LockGuard := ⟨false⟩

/-- `increment` as executed: the state effect together with the guard in
force during the writes to `val` and `done` (threading.cpp 28-32). -/
def incrementRun (cp : ControlPoint) : Option ControlPoint × LockGuard :=
  (cp.increment, deferLockGuard)

/-- `markDone` as executed (threading.cpp 34-37). -/
def markDoneRun (cp : ControlPoint) : ControlPoint × LockGuard :=
  (cp.markDone, deferLockGuard)

/-- `getVal` as executed (threading.cpp 39-42). -/
def getValRun (cp : ControlPoint) : Nat × LockGuard :=
  (cp.getVal, deferLockGuard)

/-- `isDone` as executed (threading.cpp 44-47). -/
def isDoneRun (cp : ControlPoint) : Bool × LockGuard :=
  (cp.isDone, deferLockGuard)

/-! ## Threading.Pool (threading.h 63-75, threading.cpp 50-67) -/

/-- Pool state: `const unsigned int nProcs; unsigned int remainingThreads;`. -/
structure Pool where
  nProcs : Nat
  remainingThreads : Nat
deriving DecidableEq

/-- Pool constructor (threading.cpp 50-55): `remainingThreads = nProcs`. -/
def mkPool (n : Nat) : Pool := ⟨n, n⟩

/-- `Pool::acquire` (threading.cpp 57-61): wait until `remainingThreads > 0`,
then decrement.  `none` means the caller blocks (no state change yet). -/
def Pool.acquire (p : Pool) : Option Pool :=
  if 0 < p.remainingThreads then
    some { p with remainingThreads := p.remainingThreads - 1 }
  else none

/-- `Pool::release` (threading.cpp 63-67): `remainingThreads++` with no upper
check; the unsigned increment wraps modulo `2^32`. -/
def Pool.release (p : Pool) : Pool :=
  { p with remainingThreads := (p.remainingThreads + 1) % U32 }

/-- One pool call: an `acquire` or a `release`. -/
inductive PoolOp
  | acq
  | rel
deriving DecidableEq

/-- Run a sequence of pool calls; an acquire that finds no permit blocks and
has (so far) no effect on the state. -/
def Pool.runOps (p : Pool) : List PoolOp → Pool
  | [] => p
  | PoolOp.acq :: t =>
      Pool.runOps (match p.acquire with | some q => q | none => p) t
  | PoolOp.rel :: t => Pool.runOps p.release t

/-- Credit tracking for a pool call sequence: the credit is the number of
successful acquires minus the number of releases so far.  `none` flags a
release with no matching earlier successful acquire (the discipline the
framework obeys: `completePhase` releases only after `phaseCheck` acquired).
An acquire arriving at full credit (`c = nProcs`) finds `remaining = 0` and
blocks, earning no credit. -/
def creditRun (nProcs : Nat) : Nat → List PoolOp → Option Nat
  | c, [] => some c
  | c, PoolOp.acq :: t =>
      if c < nProcs then creditRun nProcs (c + 1) t else creditRun nProcs c t
  | c, PoolOp.rel :: t =>
      if 0 < c then creditRun nProcs (c - 1) t else none

/-! ## Domain::phaseCheck, child branch (domain.h 374-386) -/

/-- Shared synchronization state seen by a child inside `phaseCheck`: its own
control point `cpC`, its parent's control point `cpP`, and the shared pool. -/
structure ChildSync where
  cpC : ControlPoint
  cpP : ControlPoint
  pool : Pool
deriving DecidableEq

/-- Unsigned evaluation of `(cp.ncp + parent->cp.getVal() - cp.getVal()) % cp.ncp`
(domain.h 377-378).  All three operands are `unsigned int`, so the inner
expression is computed modulo `2^32`; the subtraction of `valC` is the
addition of its two's complement.  Faithful for `valC < 2^32`.  When
`ncp = 0` the source `% cp.ncp` divides by zero (C++ UB); theorems assume
`1 ≤ ncp`. -/
def gapCode (ncp valP valC : Nat) : Nat :=
  ((ncp + valP + (U32 - valC)) % U32) % ncp

/-- The child wait predicate (domain.h 376-382): pass when the gap exceeds 1,
or equals 1 with the parent done. -/
def childWaitPredicate (s : ChildSync) : Bool :=
  let g := gapCode s.cpC.ncp s.cpP.getVal s.cpC.getVal
  decide (1 < g) || (decide (g = 1) && s.cpP.isDone)

/-- Observable actions the child branch of `phaseCheck` performs after its
wait predicate holds, in program order (domain.h 383-385). -/
inductive PhaseEvent
  | cpIncrement
  | notifyParent
  | poolAcquire
deriving DecidableEq

/-- Child branch of `Domain::phaseCheck` (domain.h 374-386): wait for the
predicate, then `cp.increment(); parent->condition->notify_one();
threadPool->acquire();`.  `none` means the caller is still blocked (predicate
false, or no pool permit, or UB in `increment`).  On success the new state is
returned with the ordered trace of the three actions. -/
def childPhaseCheck (s : ChildSync) : Option (ChildSync × List PhaseEvent) :=
  if childWaitPredicate s then
    match s.cpC.increment with
    | none => none
    | some cpC2 =>
      match s.pool.acquire with
      | none => none
      | some pool2 =>
        some ({ s with cpC := cpC2, pool := pool2 },
              [PhaseEvent.cpIncrement, PhaseEvent.notifyParent,
               PhaseEvent.poolAcquire])
  else none

/-! ## Grid unit bookkeeping (grid.h 124-275, unit.h) -/

/-- The Unit fields the grid bookkeeping touches (unit.h 66-68): the constant
`int id` and the mutable `unsigned pos`. -/
structure GUnit where
  id : Int
  pos : Nat
deriving DecidableEq

/-- Per-unit-type grid state (grid.h 102-107): the `units` vector, the
occupied-position list `upos`, the vacant-position list `vpos`, and the
id-to-position map `id2pos` (an `unordered_map`, modelled as an association
list with unique keys; lookup takes the first match). -/
structure GridU where
  units : List GUnit
  upos : List Nat
  vpos : List Nat
  id2pos : List (Int × Nat)
deriving DecidableEq

/-- Grid with no units (all containers empty). -/
def emptyGridU : GridU := ⟨[], [], [], []⟩

/-- `unordered_map::find`: first entry with the given key. -/
def mapFind : List (Int × Nat) → Int → Option Nat
  | [], _ => none
  | (a, v) :: t, k => if a = k then some v else mapFind t k

/-- `unordered_map::operator[]= v`: overwrite the entry if the key is
present, otherwise append it. -/
def mapSet : List (Int × Nat) → Int → Nat → List (Int × Nat)
  | [], k, v => [(k, v)]
  | (a, w) :: t, k, v =>
      if a = k then (a, v) :: t else (a, w) :: mapSet t k v

/-- The `(id2pos[...][id])--` of grid.h 218: `operator[]` default-inserts 0
when the key is absent, then the unsigned decrement wraps. -/
def mapDec (m : List (Int × Nat)) (k : Int) : List (Int × Nat) :=
  match mapFind m k with
  | some v => mapSet m k ((v + (U32 - 1)) % U32)
  | none => m ++ [(k, (0 + (U32 - 1)) % U32)]

/-- `Grid::get_id2pos` (grid.h 91): `return id2pos[typeIndex][id];` —
`operator[]` performs no existence check and default-inserts position 0 for
an absent id.  Returns the looked-up position and the possibly grown map. -/
def get_id2pos (g : GridU) (i : Int) : Nat × GridU :=
  match mapFind g.id2pos i with
  | some v => (v, g)
  | none => (0, { g with id2pos := g.id2pos ++ [(i, 0)] })

/-- `Grid::unitExists` (grid.h 265-275): `find` on the id-to-position map;
reports absence with `false` and performs no insertion into that map. -/
def unitExists (g : GridU) (i : Int) : Bool :=
  (mapFind g.id2pos i).isSome

/-- `Grid::setUnitPosition` (grid.h 232-247): take the head of the vacant
list if nonempty, else the current vector length. -/
def setUnitPosition (g : GridU) (u : GUnit) : GUnit × GridU :=
  match g.vpos with
  | p :: rest => ({ u with pos := p }, { g with vpos := rest })
  | [] => ({ u with pos := g.units.length }, g)

/-- `Grid::insertUnit` (grid.h 124-154): assign a position, `push_back` the
unit at the END of the vector, append the position to `upos`, and set
`id2pos[id] = pos`.  (Patch invalidation is outside this model.) -/
def insertUnit (g : GridU) (u : GUnit) : GridU :=
  let r := setUnitPosition g u
  { r.2 with
    units := r.2.units ++ [r.1],
    upos := r.2.upos ++ [r.1.pos],
    id2pos := mapSet r.2.id2pos r.1.id r.1.pos }

/-- Index of the first occurrence of `u` (C++ `std::find` then
`std::distance`); equals the length when absent. -/
def indexOfUnit : List GUnit → GUnit → Nat
  | [], _ => 0
  | x :: t, u => if x = u then 0 else indexOfUnit t u + 1

/-- `Grid::confirmUnitPosition` (grid.h 251-261). -/
def confirmUnitPosition (g : GridU) (u : GUnit) : Bool :=
  indexOfUnit g.units u == u.pos

/-- The shift loop of `removeUnit` (grid.h 215-219) on the post-erase vector:
every unit at index `pos` or later gets `pos--` (unsigned wrap). -/
def shiftUnits (l : List GUnit) (pos : Nat) : List GUnit :=
  l.mapIdx fun i x =>
    if pos ≤ i then { x with pos := (x.pos + (U32 - 1)) % U32 } else x

/-- The id2pos updates of the same loop: decrement the entry of each unit at
index `pos` or later of the post-erase vector, in order. -/
def shiftMap (m : List (Int × Nat)) (l : List GUnit) (pos : Nat) :
    List (Int × Nat) :=
  (l.drop pos).foldl (fun acc x => mapDec acc x.id) m

/-- `Grid::removeUnit` (grid.h 190-229): check the position, move `pos` from
`upos` to the vacant list `vpos`, erase the unit (by identity; ids are unique
in our runs), then shift the positions of all following units down and
decrement their id2pos entries.  The removed unit's own id2pos entry is NOT
erased.  `none` models the fatal `Report::error` on a position mismatch. -/
def removeUnit (g : GridU) (u : GUnit) : Option GridU :=
  if confirmUnitPosition g u then
    let pos := u.pos
    let units2 := g.units.filter (fun x => decide (x ≠ u))
    some { units := shiftUnits units2 pos,
           upos := g.upos.filter (fun x => decide (x ≠ pos)),
           vpos := g.vpos ++ [pos],
           id2pos := shiftMap g.id2pos units2 pos }
  else none

/-- The per-unit-type grid invariant of the specification: every stored unit
`u` satisfies `units[u.pos].id = u.id` and `id2pos[u.id] = u.pos`. -/
def unitInvariantB (g : GridU) : Bool :=
  g.units.all fun u =>
    match g.units[u.pos]? with
    | some w => (w.id == u.id) && (mapFind g.id2pos u.id == some u.pos)
    | none => false

/-- Run exercising the vacant-position free list: insert ids 0 and 1, remove
the unit with id 0, then insert id 2 (which takes its position from the
vacant list). -/
def freelistRun : Option GridU :=
  (removeUnit (insertUnit (insertUnit emptyGridU ⟨0, 0⟩) ⟨1, 0⟩) ⟨0, 0⟩).map
    (fun g => insertUnit g ⟨2, 0⟩)

/-! ## Grid patch bookkeeping (grid.h 277-328) -/

/-- Value of `UINT_MAX`, the id of a not-yet-assigned patch. -/
def UINT_MAX : Nat := U32 - 1

/-- Patch-side grid state (grid.h 98-99): the `patches` deque (represented by
each patch's id) and the vacant-patch-id list `vpids`. -/
structure GridP where
  patchIDs : List Nat
  vpids : List Nat
deriving DecidableEq

/-- `Grid::addPatch` (grid.h 278-290): `emplace_back` a patch (fresh id
`UINT_MAX`, so `setPatchID`'s already-assigned check passes), then
`setPatchID` (grid.h 311-328) assigns the head of `vpids` if any, otherwise
`int(patches.size()-1)` counted after the emplace.  Returns the new state and
the id given to the returned patch. -/
def addPatch (g : GridP) : GridP × Nat :=
  match g.vpids with
  | v :: rest => ({ patchIDs := g.patchIDs ++ [v], vpids := rest }, v)
  | [] => ({ patchIDs := g.patchIDs ++ [g.patchIDs.length], vpids := [] },
           g.patchIDs.length)

/-- Index of the first patch whose id matches (the counting loop with `break`
of grid.h 297-303); equals the length when no patch matches. -/
def findPatchIdx : List Nat → Nat → Nat
  | [], _ => 0
  | x :: t, i => if x = i then 0 else findPatchIdx t i + 1

/-- `Grid::removePatch` (grid.h 293-308): erase the first patch whose id
equals the given patch's id.  `vpids` is not touched.  (When no patch
matches, the source calls `erase(end())`, which is C++ UB; `eraseIdx` at the
length is a no-op and our theorems never reach that case.) -/
def removePatch (g : GridP) (pid : Nat) : GridP :=
  { g with patchIDs := g.patchIDs.eraseIdx (findPatchIdx g.patchIDs pid) }

/-! ## Project::check_nProc (project.h 384-410) -/

/-- First check of `check_nProc` (project.h 386-393): when
`nProcTotal > hardware_concurrency()`, set it to `hardware_concurrency()-1`
(an unsigned decrement, which wraps when the hardware reports 0). -/
def clampTotal (hw t : Nat) : Nat :=
  if hw < t then (hw + (U32 - 1)) % U32 else t

/-- Second check (project.h 395-402): when `nProcChild >= nProcTotal`, set
it to `nProcTotal - 1` (unsigned, wraps when `nProcTotal = 0`). -/
def clampChild (t2 c : Nat) : Nat :=
  if t2 ≤ c then (t2 + (U32 - 1)) % U32 else c

/-- Third check (project.h 404-409): when `domains.size() == 0` and
`nProcChild > 0`, set `nProcChild` to zero. -/
def zeroChild (nDomains c2 : Nat) : Nat :=
  if nDomains = 0 ∧ 0 < c2 then 0 else c2

/-- `Project::check_nProc` (project.h 384-410): `hw` is
`std::thread::hardware_concurrency()`, `nDomains` is `domains.size()`, and
`(t, c)` are the `nProcTotal, nProcChild` reference parameters, run through
the three sequential checks. -/
def check_nProc (hw nDomains t c : Nat) : Nat × Nat :=
  (clampTotal hw t, zeroChild nDomains (clampChild (clampTotal hw t) c))

/-! ## Unit handles: cref and mref (uref.h) -/

/-- Replace the element at index `i` (used for in-place mutation of one
handle inside the world's handle tables). -/
def updList {α : Type} : List α → Nat → (α → α) → List α
  | [], _, _ => []
  | x :: t, 0, f => f x :: t
  | x :: t, n + 1, f => x :: updList t n f

/-- State of a `cref` (uref.h 146-149): the unit address (`none` models a
null `unitPtr`), the `root` back-pointer (a cref index; `none` models null),
and the registered duplicates (mref indices, in registration order). -/
structure CrefState where
  unitPtr : Option Nat
  root : Option Nat
  duplicates : List Nat
deriving DecidableEq

/-- State of an `mref` (uref.h 278-280). -/
structure MrefState where
  unitPtr : Option Nat
  root : Option Nat
deriving DecidableEq

/-- All live handles: crefs and mrefs addressed by their index. -/
structure RefWorld where
  crefs : List CrefState
  mrefs : List MrefState
deriving DecidableEq

/-- A world holding one canonical handle over the unit at address `a0`
(private constructor, uref.h 113-116: `root` stays null). -/
def mkWorld (a0 : Nat) : RefWorld := ⟨[⟨some a0, none, []⟩], []⟩

/-- Apply `f` to cref `i`. -/
def updCref (w : RefWorld) (i : Nat) (f : CrefState → CrefState) : RefWorld :=
  { w with crefs := updList w.crefs i f }

/-- Apply `f` to mref `d`. -/
def updMref (w : RefWorld) (d : Nat) (f : MrefState → MrefState) : RefWorld :=
  { w with mrefs := updList w.mrefs d f }

/-- `mref(const cref&)` (uref.h 177-188): the new duplicate copies the
canonical's `unitPtr`, takes the canonical's `root` field as its own root,
and registers itself on the canonical (`addDuplicate`). -/
def mrefFromCref (w : RefWorld) (i : Nat) : RefWorld :=
  match w.crefs[i]? with
  | none => w
  | some c =>
    let d := w.mrefs.length
    let w2 := { w with mrefs := w.mrefs ++ [⟨c.unitPtr, c.root⟩] }
    updCref w2 i fun x => { x with duplicates := x.duplicates ++ [d] }

/-- Register `k` duplicates on cref `i`, one after the other. -/
def regMany (w : RefWorld) (i : Nat) : Nat → RefWorld
  | 0 => w
  | k + 1 => regMany (mrefFromCref w i) i k

/-- Retarget the roots of the listed mrefs to cref `j` (the loop of
uref.h 79-81). -/
def setMrefRoots (w : RefWorld) (ds : List Nat) (j : Nat) : RefWorld :=
  ds.foldl (fun acc d => updMref acc d (fun m => { m with root := some j })) w

/-- `cref(cref&&)` (uref.h 67-82): the new canonical copies the unit pointer
and the duplicates vector, sets its own root to itself, and retargets every
duplicate's root to itself.  Returns the new canonical's index. -/
def moveCref (w : RefWorld) (i : Nat) : RefWorld × Nat :=
  match w.crefs[i]? with
  | none => (w, i)
  | some c =>
    let j := w.crefs.length
    let w2 := { w with crefs := w.crefs ++ [⟨c.unitPtr, some j, c.duplicates⟩] }
    (setMrefRoots w2 c.duplicates j, j)

/-- Set the `unitPtr` of the listed mrefs to address `a` (the duplicate
revalidation loop of uref.h 141-143, each call being mref::revalidate,
uref.h 264-266). -/
def setMrefPtrs (w : RefWorld) (ds : List Nat) (a : Nat) : RefWorld :=
  ds.foldl (fun acc d => updMref acc d (fun m => { m with unitPtr := some a })) w

/-- `cref::revalidate` (uref.h 137-144): update the canonical's own address,
then inform every registered duplicate. -/
def revalidateCref (w : RefWorld) (i a : Nat) : RefWorld :=
  match w.crefs[i]? with
  | none => w
  | some c => setMrefPtrs (updCref w i fun x => { x with unitPtr := some a })
      c.duplicates a

/-- `cref::operator()` (uref.h 57-63): `none` models the thrown
`invalidated_ref` on a null pointer. -/
def derefCref (w : RefWorld) (i : Nat) : Option Nat :=
  (w.crefs[i]?).bind (fun c => c.unitPtr)

/-- `mref::operator()` (uref.h 168-174). -/
def derefMref (w : RefWorld) (d : Nat) : Option Nat :=
  (w.mrefs[d]?).bind (fun m => m.unitPtr)

/-- The relocation scenario of the claim: a canonical over address `a0`
acquires `n1` duplicates, the canonical is moved (grid reallocation), `n2`
further duplicates are registered on the new canonical, and the grid then
relocates the unit to address `a1` and calls `revalidate`.  Returns the
final world and the index of the current canonical. -/
def relocScenario (a0 n1 n2 a1 : Nat) : RefWorld × Nat :=
  let w1 := regMany (mkWorld a0) 0 n1
  let m := moveCref w1 0
  let w3 := regMany m.1 m.2 n2
  (revalidateCref w3 m.2 a1, m.2)

/-- Canonical-handle invariant threaded through the relocation scenario:
cref `i` exists, stores `p`, and every live mref is registered among its
duplicates. -/
def canonReach (w : RefWorld) (i : Nat) (p : Option Nat) : Prop :=
  ∃ c, w.crefs[i]? = some c ∧ c.unitPtr = p ∧
    ∀ d, d < w.mrefs.length → d ∈ c.duplicates

/-! ## Supporting lemmas -/

lemma U32_pos : 1 ≤ U32 := by norm_num [U32]

lemma registerPhases_eq (k : Nat) :
    registerPhases k = ⟨k % U32, U32 - 1, true⟩ := by
  induction k with
  | zero => simp [registerPhases, ControlPoint.start, Nat.zero_mod]
  | succ k ih =>
      simp [registerPhases, ih, ControlPoint.bumpNcp, Nat.mod_add_mod]

lemma unsignedDec (x : Nat) (h1 : 1 ≤ x) (h2 : x < U32) :
    (x + (U32 - 1)) % U32 = x - 1 := by
  have hU := U32_pos
  have hx : x + (U32 - 1) = U32 + (x - 1) := by omega
  rw [hx, Nat.add_mod_left, Nat.mod_eq_of_lt (by omega)]

/-! ## Claim theorems -/

/-- C3 counterexample: with `ncp = 3` phases registered, the freshly
constructed ControlPoint has `done = true` but its stored value is
`2^32 - 1`, which is neither equal to `ncp - 1 = 2` nor congruent to it
modulo 3 (it is congruent to 0), refuting the claim that `getVal()` is
congruent to `ncp - 1` modulo `ncp` before any increment. -/
theorem controlPoint_start_val_not_congruent :
    (registerPhases 3).done = true ∧ (registerPhases 3).ncp = 3 ∧
    (registerPhases 3).getVal ≠ (registerPhases 3).ncp - 1 ∧
    (registerPhases 3).getVal % (registerPhases 3).ncp ≠
      ((registerPhases 3).ncp - 1) % (registerPhases 3).ncp := by
  decide

/-- C3 (amended): a freshly constructed ControlPoint with `ncp = k ≥ 1` set
by phase registration has `done = true` and stored value `2^32 - 1` (the
unsigned spelling of −1); its first `increment` therefore wraps to phase 0,
and `getVal()` is congruent to `ncp - 1` modulo `ncp` exactly when `ncp`
divides `2^32`. -/
theorem controlPoint_start_state (k : Nat) (h1 : 1 ≤ k) (h2 : k < U32) :
    (registerPhases k).done = true ∧ (registerPhases k).ncp = k ∧
    (registerPhases k).getVal = U32 - 1 ∧
    ((registerPhases k).increment).map ControlPoint.getVal = some 0 ∧
    ((registerPhases k).getVal % k = (k - 1) % k ↔ k ∣ U32) := by
  have hreg := registerPhases_eq k
  have hk : k % U32 = k := Nat.mod_eq_of_lt h2
  have hU := U32_pos
  rw [hreg]
  refine ⟨rfl, hk, rfl, ?_, ?_⟩
  · have hne : k % U32 ≠ 0 := by omega
    simp only [ControlPoint.increment, hne, if_false, Option.map_some]
    have hsum : U32 - 1 + 1 = U32 := by omega
    simp [ControlPoint.getVal, hsum, Nat.mod_self, Nat.zero_mod]
  · simp only [ControlPoint.getVal]
    have hk1 : (k - 1) % k = k - 1 := Nat.mod_eq_of_lt (by omega)
    rw [hk1]
    constructor
    · intro h
      rcases Nat.lt_or_ge k 2 with hk2 | hk2
      · have : k = 1 := by omega
        simp [this]
      · have hU32 : U32 = (U32 - 1) + 1 := by omega
        have : U32 % k = 0 := by
          rw [hU32, Nat.add_mod, h, Nat.mod_eq_of_lt (show (1:Nat) < k by omega)]
          have hk0 : k - 1 + 1 = k := by omega
          rw [hk0, Nat.mod_self]
        exact Nat.dvd_of_mod_eq_zero this
    · intro hdvd
      obtain ⟨m, hm⟩ := hdvd
      have hm2 : U32 = m * k := by rw [hm, Nat.mul_comm]
      have hmpos : 1 ≤ m := by
        rcases Nat.eq_zero_or_pos m with h0 | h0
        · subst h0
          rw [Nat.mul_zero] at hm
          exact absurd hm (by omega)
        · exact h0
      have hkm : k ≤ m * k := Nat.le_mul_of_pos_left k hmpos
      have hsplit : U32 - 1 = (k - 1) + (m - 1) * k := by
        rw [Nat.sub_one_mul]
        omega
      rw [hsplit, Nat.add_mul_mod_self_right]
      exact Nat.mod_eq_of_lt (by omega)

/-- C3 witness: the amended statement holds at the concrete phase count 3. -/
theorem controlPoint_start_state_witness :
    (registerPhases 3).done = true ∧ (registerPhases 3).ncp = 3 ∧
    (registerPhases 3).getVal = U32 - 1 ∧
    ((registerPhases 3).increment).map ControlPoint.getVal = some 0 ∧
    ((registerPhases 3).getVal % 3 = (3 - 1) % 3 ↔ (3 : Nat) ∣ U32) :=
  controlPoint_start_state 3 (by decide) (by decide)

/-- C9: `ControlPoint::increment` is total exactly under `ncp ≥ 1`: with at
least one registered phase it computes `val = (val+1) mod ncp` (the `+1`
wrapping as unsigned) and clears `done`, while on a default-constructed
ControlPoint (`ncp = 0`) the `%ncp` divides by zero. -/
theorem increment_requires_phase_registration :
    (∀ cp : ControlPoint, 1 ≤ cp.ncp →
      ∃ cp2, cp.increment = some cp2 ∧
        cp2.val = ((cp.val + 1) % U32) % cp.ncp ∧ cp2.done = false ∧
        cp2.ncp = cp.ncp) ∧
    ControlPoint.start.increment = none := by
  constructor
  · intro cp h
    have hne : cp.ncp ≠ 0 := by omega
    refine ⟨{ cp with val := ((cp.val + 1) % U32) % cp.ncp, done := false },
      ?_, rfl, rfl, rfl⟩
    simp [ControlPoint.increment, hne]
  · rfl

/-- C9 witness: the totality branch applied to the concrete ControlPoint
with two registered phases. -/
theorem increment_requires_phase_registration_witness :
    1 ≤ (registerPhases 2).ncp ∧
    ∃ cp2, (registerPhases 2).increment = some cp2 ∧
      cp2.val = (((registerPhases 2).val + 1) % U32) % (registerPhases 2).ncp ∧
      cp2.done = false ∧ cp2.ncp = (registerPhases 2).ncp :=
  ⟨by decide,
   increment_requires_phase_registration.1 (registerPhases 2) (by decide)⟩

/-- C8: contrary to the claim, no ControlPoint operation holds the
reader/writer lock during its access: all four operations construct their
guard with `std::defer_lock` and never lock it, so the guard in force during
every read and write of `val`/`done` does not own the mutex. -/
theorem controlPoint_ops_lock_never_held :
    ∀ cp : ControlPoint,
      (incrementRun cp).2.owns = false ∧ (markDoneRun cp).2.owns = false ∧
      (getValRun cp).2.owns = false ∧ (isDoneRun cp).2.owns = false :=
  fun _ => ⟨rfl, rfl, rfl, rfl⟩

/-- C10: `Grid::get_id2pos` performs no existence check: on an id absent
from the map it returns position 0 and appends a default entry for that id,
whereas `unitExists` reports absence with `false` (it uses `find` and never
inserts into the id-to-position map). -/
theorem get_id2pos_defaults_to_zero (g : GridU) (i : Int)
    (h : mapFind g.id2pos i = none) :
    (get_id2pos g i).1 = 0 ∧
    (get_id2pos g i).2.id2pos = g.id2pos ++ [(i, 0)] ∧
    unitExists g i = false := by
  simp [get_id2pos, unitExists, h]

/-- C10 witness: the empty grid with the absent id 5. -/
theorem get_id2pos_defaults_to_zero_witness :
    (get_id2pos emptyGridU 5).1 = 0 ∧
    (get_id2pos emptyGridU 5).2.id2pos = emptyGridU.id2pos ++ [(5, 0)] ∧
    unitExists emptyGridU 5 = false :=
  get_id2pos_defaults_to_zero emptyGridU 5 (by decide)

/-- C4 counterexample: on a pool with budget 1, a single `release` (with no
prior acquire) raises `remainingThreads` to 2 > `nProcs`, refuting the claim
for arbitrary call sequences: `release` increments unconditionally. -/
theorem pool_release_exceeds_budget :
    (Pool.runOps (mkPool 1) [PoolOp.rel]).remainingThreads = 2 ∧
    (Pool.runOps (mkPool 1) [PoolOp.rel]).nProcs = 1 ∧
    ¬((Pool.runOps (mkPool 1) [PoolOp.rel]).remainingThreads ≤
      (Pool.runOps (mkPool 1) [PoolOp.rel]).nProcs) := by
  decide

/-- C5 counterexample: `addPatch` on an empty grid returns a patch with
id 0; `removePatch` on it restores the patch count but leaves the
vacant-patch-id list empty — the freed id is never pushed onto `vpids`,
refuting that part of the claim. -/
theorem removePatch_leaves_vpids_empty :
    (removePatch (addPatch ⟨[], []⟩).1 (addPatch ⟨[], []⟩).2).patchIDs = [] ∧
    (removePatch (addPatch ⟨[], []⟩).1 (addPatch ⟨[], []⟩).2).vpids = [] ∧
    ¬((addPatch ⟨[], []⟩).2 ∈
      (removePatch (addPatch ⟨[], []⟩).1 (addPatch ⟨[], []⟩).2).vpids) := by
  decide

/-- C6 counterexample: with hardware concurrency 8 and a project holding one
(parent) domain and no child domains, `check_nProc(8, 2)` returns
`nProcTotal = 8` — not clamped to `hardware − 1 = 7`, because the clamp
fires only on strict excess — and `nProcChild = 2 ≠ 0`, because the
zero-children reset tests `domains.size() == 0`, not the absence of child
domains. -/
theorem check_nProc_not_clamped :
    check_nProc 8 1 8 2 = (8, 2) ∧
    ¬((check_nProc 8 1 8 2).1 ≤ 8 - 1) ∧
    (check_nProc 8 1 8 2).2 ≠ 0 := by
  decide

/-- C2: the unit bookkeeping invariant breaks when `insertUnit` reuses a
position from the vacant list.  Failing input: insert ids 0 and 1, remove
id 0 (which both records position 0 as vacant and shifts unit 1 down into
position 0), then insert id 2.  The new unit is appended at index 1 yet
labelled `pos = 0`, so `units[u.pos].id = 1 ≠ 2 = u.id`, violating the
claimed invariant. -/
theorem freelist_insert_breaks_unit_invariant :
    ∃ g : GridU, freelistRun = some g ∧
      g.units = [⟨1, 0⟩, ⟨2, 0⟩] ∧
      unitInvariantB g = false := by
  refine ⟨⟨[⟨1, 0⟩, ⟨2, 0⟩], [1, 0], [], [(0, 0), (1, 0), (2, 0)]⟩,
    by decide, by decide, by decide⟩

lemma pool_runOps_credit (ops : List PoolOp) :
    ∀ (n c : Nat) (p : Pool), p.nProcs = n → p.remainingThreads = n - c →
      c ≤ n → n < U32 →
      ∀ c2, creditRun n c ops = some c2 →
        (Pool.runOps p ops).nProcs = n ∧ c2 ≤ n ∧
        (Pool.runOps p ops).remainingThreads = n - c2 := by
  induction ops with
  | nil =>
      intro n c p h1 h2 h3 h4 c2 h5
      simp only [creditRun, Option.some_inj] at h5
      subst h5
      exact ⟨h1, h3, h2⟩
  | cons op t ih =>
      intro n c p h1 h2 h3 h4 c2 h5
      cases op with
      | acq =>
          simp only [creditRun] at h5
          by_cases hc : c < n
          · rw [if_pos hc] at h5
            have hpos : 0 < p.remainingThreads := by omega
            have hacq : p.acquire =
                some { p with remainingThreads := p.remainingThreads - 1 } := by
              simp [Pool.acquire, hpos]
            have hstep : Pool.runOps p (PoolOp.acq :: t) =
                Pool.runOps { p with
                  remainingThreads := p.remainingThreads - 1 } t := by
              simp only [Pool.runOps, hacq]
            rw [hstep]
            refine ih n (c + 1)
              { p with remainingThreads := p.remainingThreads - 1 }
              h1 ?_ (by omega) h4 c2 h5
            show p.remainingThreads - 1 = n - (c + 1)
            omega
          · rw [if_neg hc] at h5
            have hzero : p.remainingThreads = 0 := by omega
            have hacq : p.acquire = none := by
              simp [Pool.acquire, hzero]
            have hstep : Pool.runOps p (PoolOp.acq :: t) =
                Pool.runOps p t := by
              simp only [Pool.runOps, hacq]
            rw [hstep]
            exact ih n c p h1 h2 h3 h4 c2 h5
      | rel =>
          simp only [creditRun] at h5
          by_cases hc : 0 < c
          · rw [if_pos hc] at h5
            have hstep : Pool.runOps p (PoolOp.rel :: t) =
                Pool.runOps p.release t := by
              simp only [Pool.runOps]
            have hrem : (p.release).remainingThreads = n - (c - 1) := by
              show (p.remainingThreads + 1) % U32 = n - (c - 1)
              rw [h2, Nat.mod_eq_of_lt (by omega)]
              omega
            rw [hstep]
            exact ih n (c - 1) p.release
              (show (p.release).nProcs = n from h1) hrem (by omega) h4 c2 h5
          · rw [if_neg hc] at h5
            exact absurd h5 (by simp)

/-- C4 (amended): on a pool of budget `nProcs < 2^32`, the remaining count
stays within `0 ≤ remaining ≤ nProcs` for every acquire/release sequence in
which each release is matched by an earlier successful acquire (the
framework's `phaseCheck`-then-`completePhase` discipline, expressed by
`creditRun` succeeding); an unmatched `release` increments past `nProcs`
unconditionally. -/
theorem pool_remaining_bounded_disciplined (n : Nat) (ops : List PoolOp)
    (c2 : Nat) (hn : n < U32) (h : creditRun n 0 ops = some c2) :
    (Pool.runOps (mkPool n) ops).remainingThreads = n - c2 ∧
    (Pool.runOps (mkPool n) ops).remainingThreads ≤
      (Pool.runOps (mkPool n) ops).nProcs := by
  have hmain := pool_runOps_credit ops n 0 (mkPool n) rfl
    (by simp [mkPool]) (Nat.zero_le n) hn c2 h
  refine ⟨hmain.2.2, ?_⟩
  rw [hmain.2.2, hmain.1]
  omega

/-- C4 witness: budget 2 with the disciplined sequence
acquire, release, acquire, acquire, release (final credit 1). -/
theorem pool_remaining_bounded_disciplined_witness :
    (Pool.runOps (mkPool 2)
      [PoolOp.acq, PoolOp.rel, PoolOp.acq, PoolOp.acq, PoolOp.rel]
      ).remainingThreads = 2 - 1 ∧
    (Pool.runOps (mkPool 2)
      [PoolOp.acq, PoolOp.rel, PoolOp.acq, PoolOp.acq, PoolOp.rel]
      ).remainingThreads ≤
    (Pool.runOps (mkPool 2)
      [PoolOp.acq, PoolOp.rel, PoolOp.acq, PoolOp.acq, PoolOp.rel]).nProcs :=
  pool_remaining_bounded_disciplined 2
    [PoolOp.acq, PoolOp.rel, PoolOp.acq, PoolOp.acq, PoolOp.rel] 1
    (by decide) (by decide)

lemma findPatchIdx_append (l : List Nat) (n : Nat)
    (h : ∀ j ∈ l, j ≠ n) : findPatchIdx (l ++ [n]) n = l.length := by
  induction l with
  | nil => simp [findPatchIdx]
  | cons x t ih =>
      have hx : x ≠ n := h x (by simp)
      have ht := ih (fun j hj => h j (by simp [hj]))
      show findPatchIdx (x :: (t ++ [n])) n = t.length + 1
      unfold findPatchIdx
      rw [if_neg hx, ht]

lemma eraseIdx_append_length {α : Type} (l : List α) (x : α) :
    (l ++ [x]).eraseIdx l.length = l := by
  induction l with
  | nil => simp
  | cons y t ih => simp [List.eraseIdx, ih]

/-- C5 (amended): `addPatch` followed by `removePatch` on the returned patch
restores the grid's patch count, but the freed id is NOT pushed onto the
vacant-patch-id free list — `removePatch` leaves `vpids` untouched.  When
`vpids` is empty and no existing patch already carries the id
`patches.size()`, a subsequent `addPatch` nevertheless assigns the same id
again, because it is recomputed as `patches.size() - 1`, not recycled
through the free list. -/
theorem addPatch_removePatch_roundtrip (g : GridP)
    (hv : g.vpids = [])
    (hfresh : ∀ j ∈ g.patchIDs, j ≠ g.patchIDs.length) :
    (removePatch (addPatch g).1 (addPatch g).2).patchIDs = g.patchIDs ∧
    (removePatch (addPatch g).1 (addPatch g).2).vpids = g.vpids ∧
    (addPatch (removePatch (addPatch g).1 (addPatch g).2)).2 =
      (addPatch g).2 := by
  have hadd : addPatch g =
      ({ patchIDs := g.patchIDs ++ [g.patchIDs.length], vpids := [] },
       g.patchIDs.length) := by
    unfold addPatch
    rw [hv]
  have hrem : removePatch
      { patchIDs := g.patchIDs ++ [g.patchIDs.length], vpids := ([] : List Nat) }
      g.patchIDs.length =
      { patchIDs := g.patchIDs, vpids := ([] : List Nat) } := by
    unfold removePatch
    rw [findPatchIdx_append g.patchIDs g.patchIDs.length hfresh,
        eraseIdx_append_length g.patchIDs g.patchIDs.length]
  rw [hadd]
  dsimp only
  rw [hrem]
  refine ⟨rfl, hv.symm, rfl⟩

/-- C5 witness: the amended round trip on the empty grid. -/
theorem addPatch_removePatch_roundtrip_witness :
    (removePatch (addPatch ⟨[], []⟩).1 (addPatch ⟨[], []⟩).2).patchIDs =
      GridP.patchIDs ⟨[], []⟩ ∧
    (removePatch (addPatch ⟨[], []⟩).1 (addPatch ⟨[], []⟩).2).vpids =
      GridP.vpids ⟨[], []⟩ ∧
    (addPatch (removePatch (addPatch ⟨[], []⟩).1 (addPatch ⟨[], []⟩).2)).2 =
      (addPatch ⟨[], []⟩).2 :=
  addPatch_removePatch_roundtrip ⟨[], []⟩ rfl (by simp)

lemma clampTotal_le (hw t : Nat) (h1 : 1 ≤ hw) (h2 : hw < U32) :
    clampTotal hw t ≤ hw := by
  unfold clampTotal
  split
  · rw [unsignedDec hw h1 h2]
    omega
  · omega

lemma clampTotal_lt_U32 (hw t : Nat) (h1 : 1 ≤ hw) (h2 : hw < U32) :
    clampTotal hw t < U32 := by
  unfold clampTotal
  split
  · rw [unsignedDec hw h1 h2]
    omega
  · omega

lemma clampChild_lt (t2 c : Nat) (h1 : 1 ≤ t2) (h2 : t2 < U32) :
    clampChild t2 c < t2 := by
  unfold clampChild
  split
  · rw [unsignedDec t2 h1 h2]
    omega
  · omega

lemma zeroChild_le (nd c2 : Nat) : zeroChild nd c2 ≤ c2 := by
  unfold zeroChild
  split <;> omega

lemma zeroChild_of_no_domains (nd c2 : Nat) (h : nd = 0) :
    zeroChild nd c2 = 0 := by
  unfold zeroChild
  split
  · rfl
  · omega

/-- C6 (amended): after `check_nProc` with hardware concurrency
`1 ≤ hw < 2^32`: `nProcTotal` is at most `hw` (it is lowered to `hw - 1`
only when it strictly exceeded `hw`); whenever the resulting `nProcTotal`
is at least 1, `nProcChild < nProcTotal` (at `nProcTotal = 0` the unsigned
`nProcTotal - 1` would wrap instead); and `nProcChild` is forced to 0 only
when the project has no domains at all (`domains.size() == 0`), not merely
no child domains. -/
theorem check_nProc_amended (hw nd t c : Nat)
    (hhw1 : 1 ≤ hw) (hhw2 : hw < U32) :
    (check_nProc hw nd t c).1 ≤ hw ∧
    (1 ≤ (check_nProc hw nd t c).1 →
      (check_nProc hw nd t c).2 < (check_nProc hw nd t c).1) ∧
    (nd = 0 → (check_nProc hw nd t c).2 = 0) := by
  refine ⟨clampTotal_le hw t hhw1 hhw2, ?_, ?_⟩
  · intro h12
    have hc2 := clampChild_lt (clampTotal hw t) c h12
      (clampTotal_lt_U32 hw t hhw1 hhw2)
    have hc3 := zeroChild_le nd (clampChild (clampTotal hw t) c)
    simp only [check_nProc] at h12 ⊢
    omega
  · intro hnd
    exact zeroChild_of_no_domains nd _ hnd

/-- C6 witness: hardware 8, an empty project, inputs (4, 2): total stays 4,
child is zeroed. -/
theorem check_nProc_amended_witness :
    (check_nProc 8 0 4 2).1 ≤ 8 ∧
    (1 ≤ (check_nProc 8 0 4 2).1 →
      (check_nProc 8 0 4 2).2 < (check_nProc 8 0 4 2).1) ∧
    ((0 : Nat) = 0 → (check_nProc 8 0 4 2).2 = 0) :=
  check_nProc_amended 8 0 4 2 (by decide) (by decide)

lemma gapCode_eq (ncp valP valC : Nat) (h1 : 1 ≤ ncp) (hb : ncp ≤ 2 ^ 31)
    (hp : valP < ncp) (hc : valC < ncp) :
    gapCode ncp valP valC = (ncp + valP - valC) % ncp := by
  have hU32val : U32 = 4294967296 := by norm_num [U32]
  have h31 : (2 : Nat) ^ 31 = 2147483648 := by norm_num
  unfold gapCode
  have hsum : ncp + valP + (U32 - valC) = U32 + (ncp + valP - valC) := by
    omega
  rw [hsum, Nat.add_mod_left,
      Nat.mod_eq_of_lt (show ncp + valP - valC < U32 by omega)]

/-- C1: the wait predicate of the child branch of `Domain::phaseCheck` is
exactly `gap(C,P) > 1 ∨ (gap(C,P) = 1 ∧ done(P))` with
`gap(C,P) = (ncp + val(P) - val(C)) mod ncp`, for phase values in range
(`val < ncp`, with `1 ≤ ncp ≤ 2^31` so that no unsigned wrap perturbs the
gap); and once the predicate holds the child increments its ControlPoint,
notifies the parent, and acquires one pool permit, in that order — while a
false predicate keeps it blocked. -/
theorem childPhaseCheck_matches_spec (s : ChildSync)
    (h1 : 1 ≤ s.cpC.ncp) (hb : s.cpC.ncp ≤ 2 ^ 31)
    (hp : s.cpP.getVal < s.cpC.ncp) (hc : s.cpC.getVal < s.cpC.ncp) :
    (childWaitPredicate s = true ↔
      1 < (s.cpC.ncp + s.cpP.getVal - s.cpC.getVal) % s.cpC.ncp ∨
      ((s.cpC.ncp + s.cpP.getVal - s.cpC.getVal) % s.cpC.ncp = 1 ∧
        s.cpP.isDone = true)) ∧
    (∀ s2 evs, childPhaseCheck s = some (s2, evs) →
      evs = [PhaseEvent.cpIncrement, PhaseEvent.notifyParent,
             PhaseEvent.poolAcquire] ∧
      s2.cpC.val = ((s.cpC.val + 1) % U32) % s.cpC.ncp ∧
      s2.cpC.done = false ∧ s2.cpC.ncp = s.cpC.ncp ∧
      s2.cpP = s.cpP ∧
      s2.pool.remainingThreads = s.pool.remainingThreads - 1 ∧
      s2.pool.nProcs = s.pool.nProcs) ∧
    (childWaitPredicate s = false → childPhaseCheck s = none) := by
  refine ⟨?_, ?_, ?_⟩
  · simp only [childWaitPredicate,
      gapCode_eq s.cpC.ncp s.cpP.getVal s.cpC.getVal h1 hb hp hc,
      Bool.or_eq_true, Bool.and_eq_true, decide_eq_true_eq]
  · intro s2 evs hsome
    unfold childPhaseCheck at hsome
    split at hsome
    · have hne : s.cpC.ncp ≠ 0 := by omega
      rw [show s.cpC.increment =
          some { s.cpC with
                 val := ((s.cpC.val + 1) % U32) % s.cpC.ncp,
                 done := false } from by
        simp [ControlPoint.increment, hne]] at hsome
      by_cases hrem : 0 < s.pool.remainingThreads
      · rw [show s.pool.acquire = some { s.pool with
            remainingThreads := s.pool.remainingThreads - 1 } from by
          simp [Pool.acquire, hrem]] at hsome
        simp only [Option.some_inj, Prod.mk.injEq] at hsome
        obtain ⟨hs2, hevs⟩ := hsome
        subst hs2
        subst hevs
        exact ⟨rfl, rfl, rfl, rfl, rfl, rfl, rfl⟩
      · rw [show s.pool.acquire = none from by
          simp [Pool.acquire, hrem]] at hsome
        exact absurd hsome (by simp)
    · exact absurd hsome (by simp)
  · intro hfalse
    simp [childPhaseCheck, hfalse]

/-- C1 witness: ncp 2, parent at phase 0 and done, child at phase 1
(gap = 1), pool 2/2: the predicate releases the child and the check
succeeds. -/
theorem childPhaseCheck_matches_spec_witness :
    childWaitPredicate ⟨⟨2, 1, true⟩, ⟨2, 0, true⟩, ⟨2, 2⟩⟩ = true ∧
    childPhaseCheck ⟨⟨2, 1, true⟩, ⟨2, 0, true⟩, ⟨2, 2⟩⟩ =
      some (⟨⟨2, 0, false⟩, ⟨2, 0, true⟩, ⟨2, 1⟩⟩,
        [PhaseEvent.cpIncrement, PhaseEvent.notifyParent,
         PhaseEvent.poolAcquire]) := by
  have h := childPhaseCheck_matches_spec
    ⟨⟨2, 1, true⟩, ⟨2, 0, true⟩, ⟨2, 2⟩⟩
    (by decide) (by decide) (by decide) (by decide)
  exact ⟨h.1.mpr (Or.inr ⟨by decide, rfl⟩), by decide⟩

lemma updList_length {α : Type} (l : List α) (i : Nat) (f : α → α) :
    (updList l i f).length = l.length := by
  induction l generalizing i with
  | nil => rfl
  | cons x t ih =>
      cases i with
      | zero => rfl
      | succ n => simp [updList, ih]

lemma updList_getElem {α : Type} (l : List α) (i d : Nat) (f : α → α) :
    (updList l i f)[d]? = if d = i then (l[d]?).map f else l[d]? := by
  induction l generalizing i d with
  | nil => simp [updList]
  | cons x t ih =>
      cases i with
      | zero =>
          cases d with
          | zero => simp [updList]
          | succ d => simp [updList]
      | succ i =>
          cases d with
          | zero => simp [updList]
          | succ d => simpa [updList] using ih i d

lemma setMrefPtrs_crefs (ds : List Nat) :
    ∀ (w : RefWorld) (a : Nat), (setMrefPtrs w ds a).crefs = w.crefs := by
  induction ds with
  | nil => intro w a; rfl
  | cons x t ih => intro w a; exact ih _ a

lemma setMrefPtrs_mrefs_length (ds : List Nat) :
    ∀ (w : RefWorld) (a : Nat),
      (setMrefPtrs w ds a).mrefs.length = w.mrefs.length := by
  induction ds with
  | nil => intro w a; rfl
  | cons x t ih =>
      intro w a
      rw [show setMrefPtrs w (x :: t) a =
          setMrefPtrs (updMref w x fun m => { m with unitPtr := some a }) t a
          from rfl, ih]
      simp [updMref, updList_length]

lemma setMrefPtrs_getElem (ds : List Nat) :
    ∀ (w : RefWorld) (a d : Nat),
      (setMrefPtrs w ds a).mrefs[d]? =
        if d ∈ ds then
          (w.mrefs[d]?).map (fun m => { m with unitPtr := some a })
        else w.mrefs[d]? := by
  induction ds with
  | nil => intro w a d; simp [setMrefPtrs]
  | cons x t ih =>
      intro w a d
      rw [show setMrefPtrs w (x :: t) a =
          setMrefPtrs (updMref w x fun m => { m with unitPtr := some a }) t a
          from rfl, ih]
      have hupd : (updMref w x fun m => { m with unitPtr := some a }).mrefs[d]? =
          if d = x then (w.mrefs[d]?).map (fun m => { m with unitPtr := some a })
          else w.mrefs[d]? := updList_getElem w.mrefs x d _
      by_cases hdt : d ∈ t
      · rw [if_pos hdt, hupd]
        by_cases hdx : d = x
        · rw [if_pos hdx, if_pos (by simp [hdx]), Option.map_map]
          rcases w.mrefs[d]? with _ | m
          · simp
          · simp
        · rw [if_neg hdx, if_pos (by simp [hdt])]
      · rw [if_neg hdt, hupd]
        by_cases hdx : d = x
        · rw [if_pos hdx, if_pos (by simp [hdx])]
        · rw [if_neg hdx, if_neg (by simp [hdx, hdt])]

lemma setMrefRoots_crefs (ds : List Nat) :
    ∀ (w : RefWorld) (j : Nat), (setMrefRoots w ds j).crefs = w.crefs := by
  induction ds with
  | nil => intro w j; rfl
  | cons x t ih => intro w j; exact ih _ j

lemma setMrefRoots_mrefs_length (ds : List Nat) :
    ∀ (w : RefWorld) (j : Nat),
      (setMrefRoots w ds j).mrefs.length = w.mrefs.length := by
  induction ds with
  | nil => intro w j; rfl
  | cons x t ih =>
      intro w j
      rw [show setMrefRoots w (x :: t) j =
          setMrefRoots (updMref w x fun m => { m with root := some j }) t j
          from rfl, ih]
      simp [updMref, updList_length]

lemma mrefFromCref_canon (w : RefWorld) (i : Nat) (p : Option Nat)
    (h : canonReach w i p) : canonReach (mrefFromCref w i) i p := by
  obtain ⟨c, hc, hp, hall⟩ := h
  have hred : mrefFromCref w i =
      updCref { w with mrefs := w.mrefs ++ [⟨c.unitPtr, c.root⟩] } i
        (fun x => { x with duplicates := x.duplicates ++ [w.mrefs.length] }) := by
    unfold mrefFromCref
    rw [hc]
  rw [hred]
  refine ⟨{ c with duplicates := c.duplicates ++ [w.mrefs.length] },
    ?_, hp, ?_⟩
  · show (updList w.crefs i _)[i]? = _
    rw [updList_getElem, if_pos rfl, hc]
    rfl
  · intro d hd
    have hd2 : d < w.mrefs.length + 1 := by
      simpa [updCref] using hd
    show d ∈ c.duplicates ++ [w.mrefs.length]
    rcases Nat.lt_or_ge d w.mrefs.length with hlt | hge
    · exact List.mem_append_left _ (hall d hlt)
    · have hde : d = w.mrefs.length := by omega
      subst hde
      exact List.mem_append_right _ (by simp)

lemma regMany_canon (k : Nat) :
    ∀ (w : RefWorld) (i : Nat) (p : Option Nat),
      canonReach w i p → canonReach (regMany w i k) i p := by
  induction k with
  | zero => intro w i p h; exact h
  | succ k ih => intro w i p h; exact ih _ i p (mrefFromCref_canon w i p h)

lemma moveCref_canon (w : RefWorld) (i : Nat) (p : Option Nat)
    (h : canonReach w i p) :
    canonReach (moveCref w i).1 (moveCref w i).2 p := by
  obtain ⟨c, hc, hp, hall⟩ := h
  have hred : moveCref w i =
      (setMrefRoots
        { w with crefs :=
            w.crefs ++ [⟨c.unitPtr, some w.crefs.length, c.duplicates⟩] }
        c.duplicates w.crefs.length,
       w.crefs.length) := by
    unfold moveCref
    rw [hc]
  rw [hred]
  refine ⟨⟨c.unitPtr, some w.crefs.length, c.duplicates⟩, ?_, hp, ?_⟩
  · rw [setMrefRoots_crefs]
    exact List.getElem?_concat_length _ _
  · intro d hd
    rw [setMrefRoots_mrefs_length] at hd
    exact hall d hd

lemma revalidate_reach (w : RefWorld) (i a : Nat) (p : Option Nat)
    (h : canonReach w i p) :
    derefCref (revalidateCref w i a) i = some a ∧
    ∀ d, d < w.mrefs.length → derefMref (revalidateCref w i a) d = some a := by
  obtain ⟨c, hc, hp, hall⟩ := h
  have hred : revalidateCref w i a =
      setMrefPtrs (updCref w i fun x => { x with unitPtr := some a })
        c.duplicates a := by
    unfold revalidateCref
    rw [hc]
  rw [hred]
  constructor
  · unfold derefCref
    rw [setMrefPtrs_crefs]
    show ((updList w.crefs i _)[i]?).bind _ = _
    rw [updList_getElem, if_pos rfl, hc]
    rfl
  · intro d hd
    unfold derefMref
    rw [setMrefPtrs_getElem, if_pos (hall d hd)]
    have hmr : (updCref w i fun x =>
        { x with unitPtr := some a }).mrefs[d]? = w.mrefs[d]? := rfl
    rw [hmr]
    obtain ⟨m, hm⟩ : ∃ m, w.mrefs[d]? = some m :=
      ⟨w.mrefs[d], List.getElem?_eq_getElem hd⟩
    rw [hm]
    rfl

lemma revalidateCref_mrefs_length (w : RefWorld) (i a : Nat) :
    (revalidateCref w i a).mrefs.length = w.mrefs.length := by
  unfold revalidateCref
  cases hc : w.crefs[i]? with
  | none => rfl
  | some c =>
      show (setMrefPtrs (updCref w i fun x => { x with unitPtr := some a })
        c.duplicates a).mrefs.length = w.mrefs.length
      rw [setMrefPtrs_mrefs_length]
      rfl

/-- C7: in the relocation scenario — a canonical handle over a unit, `n1`
duplicates registered on it, the canonical moved (as the grid's cref vector
reallocates), `n2` further duplicates registered, and then the grid calling
`revalidate` with the relocated unit's address — dereferencing the current
canonical and dereferencing every duplicate all yield the relocated address,
never the stale one. -/
theorem revalidate_updates_all_handles (a0 n1 n2 a1 : Nat) :
    derefCref (relocScenario a0 n1 n2 a1).1 (relocScenario a0 n1 n2 a1).2 =
      some a1 ∧
    ∀ d, d < (relocScenario a0 n1 n2 a1).1.mrefs.length →
      derefMref (relocScenario a0 n1 n2 a1).1 d = some a1 := by
  have h0 : canonReach (mkWorld a0) 0 (some a0) := by
    refine ⟨⟨some a0, none, []⟩, rfl, rfl, ?_⟩
    intro d hd
    simp [mkWorld] at hd
  have h1 := regMany_canon n1 (mkWorld a0) 0 (some a0) h0
  have h2 := moveCref_canon _ 0 _ h1
  have h3 := regMany_canon n2 _ _ _ h2
  have h4 := revalidate_reach _
    (moveCref (regMany (mkWorld a0) 0 n1) 0).2 a1 _ h3
  have hsc : relocScenario a0 n1 n2 a1 =
      (revalidateCref
        (regMany (moveCref (regMany (mkWorld a0) 0 n1) 0).1
          (moveCref (regMany (mkWorld a0) 0 n1) 0).2 n2)
        (moveCref (regMany (mkWorld a0) 0 n1) 0).2 a1,
       (moveCref (regMany (mkWorld a0) 0 n1) 0).2) := rfl
  rw [hsc]
  refine ⟨h4.1, ?_⟩
  intro d hd
  apply h4.2
  rw [revalidateCref_mrefs_length] at hd
  exact hd

end OpenHDM
